import Mathlib

/-!
Verification development for the multi-session browser pool and
connection supervisor of the whatsapp-api repository.

The JavaScript source is shallowly embedded: each class becomes a Lean
structure, each method a pure function from state (plus the outcomes of
external calls, supplied as explicit arguments) to state.  JS `Map`s are
association lists keeping insertion order (`Map.set` on an existing key
keeps its position, a new key is appended, matching V8 semantics), JS
`Set`s are duplicate-free lists, timestamps are `Nat` milliseconds and
real-valued backoff arithmetic is carried out over `ℚ`.
-/

namespace WaPool

/-! Association lists with JS `Map` semantics. -/

def alGet {α : Type} : List (String × α) → String → Option α
  | [], _ => none
  | (k, v) :: rest, key => if k = key then some v else alGet rest key

def alSet {α : Type} : List (String × α) → String → α → List (String × α)
  | [], key, v => [(key, v)]
  | (k, w) :: rest, key, v =>
      if k = key then (key, v) :: rest else (k, w) :: alSet rest key v

def alErase {α : Type} : List (String × α) → String → List (String × α)
  | [], _ => []
  | (k, v) :: rest, key =>
      if k = key then alErase rest key else (k, v) :: alErase rest key

def alUpdate {α : Type} : List (String × α) → String → (α → α) → List (String × α)
  | [], _, _ => []
  | (k, v) :: rest, key, f =>
      if k = key then (key, f v) :: alUpdate rest key f
      else (k, v) :: alUpdate rest key f

/-! Duplicate-free string lists with JS `Set` semantics. -/

def suAdd (s : List String) (k : String) : List String :=
  if k ∈ s then s else s ++ [k]

def suDel : List String → String → List String
  | [], _ => []
  | x :: rest, k => if x = k then suDel rest k else x :: suDel rest k

/-!
BrowserPool (source: the `BrowserPool` class).

A `Browser` is an opaque puppeteer handle; the fields record the
observable outcomes of the external calls `isConnected()` and
`newPage()`/`close()` made on it by the health probe, together with how
long the page round trip takes (the source imposes no bound on it).
The outcome of `browser.close()` during a destroy is likewise external;
it enters each destroying operation as an explicit `closeOk` argument —
when it is `false` the source's `catch` swallows the error and the
bookkeeping lines after `await browser.close()` never run.
-/

structure Browser where
  id : Nat
  connected : Bool
  newPageOk : Bool
  newPageMs : Nat
deriving DecidableEq, Repr

/-- Outcome of `await browser.newPage(); await page.close()`:
either the elapsed milliseconds, or the thrown error. -/
def newPageRoundTrip (b : Browser) : Except String Nat :=
  if b.newPageOk then Except.ok b.newPageMs else Except.error "newPage failed"

/-- Source `BrowserPool.isBrowserHealthy`: false when the browser is gone or
its process is not connected; otherwise try to open and close a throwaway
page, catching any error as `false`.  No timeout is raced against the
page round trip. -/
def isBrowserHealthy (b : Browser) : Bool :=
  if !b.connected then false
  else
    match newPageRoundTrip b with
    | Except.ok _ => true
    | Except.error _ => false

/-- Modelled from the spec: `healthCheck(worker) -> bool`, true iff the
process is connected and the throwaway sub-context opens and closes
within a short timeout.  Stated for comparison with the source's
`isBrowserHealthy`, which races no timeout. -/
def healthCheckSpec (timeoutMs : Nat) (b : Browser) : Bool :=
  b.connected && b.newPageOk && decide (b.newPageMs ≤ timeoutMs)

/-- Status record kept in `browserStatus` (the `pid` field, taken from the
external process handle, is not modelled). -/
structure BStatus where
  created : Nat
  lastUsed : Nat
  sessionId : String
deriving DecidableEq, Repr

structure PoolStats where
  created : Nat
  destroyed : Nat
  reused : Nat
  errors : Nat
deriving DecidableEq, Repr

structure Pool where
  maxBrowsers : Nat
  browsers : List (String × Browser)
  browserStatus : List (String × BStatus)
  inUse : List String
  stats : PoolStats
deriving DecidableEq, Repr

def mkPool (n : Nat) : Pool :=
  { maxBrowsers := n, browsers := [], browserStatus := [], inUse := [],
    stats := ⟨0, 0, 0, 0⟩ }

/-- Source `BrowserPool.destroyBrowserForSession`.  When the session has a
browser, its pages and the browser are closed and the three bookkeeping
structures are purged; a failure of `browser.close()` (`closeOk = false`)
is caught and logged, leaving every bookkeeping structure untouched. -/
def destroyBrowserForSession (p : Pool) (sessionId : String) (closeOk : Bool) :
    Pool :=
  if (alGet p.browsers sessionId).isSome then
    if closeOk then
      { p with
        browsers := alErase p.browsers sessionId,
        browserStatus := alErase p.browserStatus sessionId,
        inUse := suDel p.inUse sessionId,
        stats := { p.stats with destroyed := p.stats.destroyed + 1 } }
    else p
  else p

/-- The selection loop of `freeOldestBrowser`: fold over the
`browserStatus` entries in insertion order, keeping the session whose
`lastUsed` is strictly below the best seen so far, starting from
`Date.now()` and no candidate. -/
def pickOldest (inUse : List String) :
    List (String × BStatus) → Option String × Nat → Option String × Nat
  | [], acc => acc
  | (sid, st) :: rest, (cur, t) =>
      if sid ∉ inUse ∧ st.lastUsed < t then pickOldest inUse rest (some sid, st.lastUsed)
      else pickOldest inUse rest (cur, t)

/-- The session `freeOldestBrowser` would destroy, if any. -/
def freeOldestChoice (p : Pool) (now : Nat) : Option String :=
  (pickOldest p.inUse p.browserStatus (none, now)).1

/-- Source `BrowserPool.freeOldestBrowser`: destroy the least-recently-used
idle browser (strict comparison against `Date.now()`) and report which
session was freed; `none` when no candidate exists.  The result of the
inner `destroyBrowserForSession` is not inspected. -/
def freeOldestBrowser (p : Pool) (now : Nat) (closeOk : Bool) :
    Pool × Option String :=
  match freeOldestChoice p now with
  | some sid => (destroyBrowserForSession p sid closeOk, some sid)
  | none => (p, none)

inductive AcquireResult where
  | ok (b : Browser)
  | capacityError
deriving DecidableEq, Repr

/-- Registration tail of `getBrowserForSession`: create the isolated
browser, record it in `browsers`/`browserStatus`, mark the session in
use and bump `stats.created`. -/
def registerNewBrowser (p : Pool) (sessionId : String) (now : Nat)
    (fresh : Browser) : Pool × AcquireResult :=
  ({ p with
     browsers := alSet p.browsers sessionId fresh,
     browserStatus := alSet p.browserStatus sessionId
       { created := now, lastUsed := now, sessionId := sessionId },
     inUse := suAdd p.inUse sessionId,
     stats := { p.stats with created := p.stats.created + 1 } },
   AcquireResult.ok fresh)

/-- The capacity check and creation half of `getBrowserForSession`: at the
limit, try `freeOldestBrowser`; when nothing could be freed the thrown
capacity error is caught by the method's outer handler, which bumps
`stats.errors` and rethrows. -/
def acquireSlot (p : Pool) (sessionId : String) (now : Nat) (fresh : Browser)
    (closeOk : Bool) : Pool × AcquireResult :=
  if p.maxBrowsers ≤ p.browsers.length then
    match freeOldestChoice p now with
    | some victim =>
        registerNewBrowser (destroyBrowserForSession p victim closeOk)
          sessionId now fresh
    | none =>
        ({ p with stats := { p.stats with errors := p.stats.errors + 1 } },
         AcquireResult.capacityError)
  else registerNewBrowser p sessionId now fresh

/-- Source `BrowserPool.getBrowserForSession`.  An existing healthy browser
is reused (bumping `stats.reused`, re-marking the session in use and
refreshing `lastUsed`); an existing unhealthy one is destroyed first; then
the capacity check runs and a fresh isolated browser is created. -/
def getBrowserForSession (p : Pool) (sessionId : String) (now : Nat)
    (fresh : Browser) (closeOk : Bool) : Pool × AcquireResult :=
  match alGet p.browsers sessionId with
  | some b =>
      if isBrowserHealthy b then
        ({ p with
           stats := { p.stats with reused := p.stats.reused + 1 },
           inUse := suAdd p.inUse sessionId,
           browserStatus := alUpdate p.browserStatus sessionId
             (fun st => { st with lastUsed := now }) },
         AcquireResult.ok b)
      else
        acquireSlot (destroyBrowserForSession p sessionId closeOk)
          sessionId now fresh closeOk
  | none => acquireSlot p sessionId now fresh closeOk

/-- Source `BrowserPool.releaseBrowserForSession`: drop the session from
`inUse` and refresh its `lastUsed` timestamp when a status entry exists. -/
def releaseBrowserForSession (p : Pool) (sessionId : String) (now : Nat) : Pool :=
  { p with
    inUse := suDel p.inUse sessionId,
    browserStatus :=
      if (alGet p.browserStatus sessionId).isSome then
        alUpdate p.browserStatus sessionId (fun st => { st with lastUsed := now })
      else p.browserStatus }

/-- Source `BrowserPool.performCleanup`: collect the idle sessions whose
idle time exceeds 30 minutes, then destroy each. -/
def performCleanup (p : Pool) (now : Nat) (closeOk : Bool) : Pool :=
  let maxIdleTime := 1800000
  let sessionsToClean :=
    (p.browserStatus.filter
      (fun e => decide (e.1 ∉ p.inUse ∧ maxIdleTime < now - e.2.lastUsed))).map
      Prod.fst
  sessionsToClean.foldl (fun q sid => destroyBrowserForSession q sid closeOk) p

/-- Source `BrowserPool.destroyAll`: destroy the browser of every session
currently in the `browsers` map. -/
def destroyAll (p : Pool) (closeOk : Bool) : Pool :=
  (p.browsers.map Prod.fst).foldl
    (fun q sid => destroyBrowserForSession q sid closeOk) p

/-- One serialized pool operation, with the outcomes of the external calls
it performs (current time, the freshly launched browser, whether the
browser closes performed succeed) supplied by the environment. -/
inductive POp where
  | acquire (sessionId : String) (now : Nat) (fresh : Browser) (closeOk : Bool)
  | release (sessionId : String) (now : Nat)
  | destroy (sessionId : String) (closeOk : Bool)
  | sweep (now : Nat) (closeOk : Bool)
  | destroyAllOp (closeOk : Bool)
deriving DecidableEq, Repr

def poolStep (p : Pool) : POp → Pool
  | POp.acquire sid now fresh closeOk => (getBrowserForSession p sid now fresh closeOk).1
  | POp.release sid now => releaseBrowserForSession p sid now
  | POp.destroy sid closeOk => destroyBrowserForSession p sid closeOk
  | POp.sweep now closeOk => performCleanup p now closeOk
  | POp.destroyAllOp closeOk => destroyAll p closeOk

def runPool (p : Pool) (ops : List POp) : Pool :=
  ops.foldl poolStep p

/-- Every browser close performed by the operation succeeds. -/
def opClosesOk : POp → Prop
  | POp.acquire _ _ _ closeOk => closeOk = true
  | POp.release _ _ => True
  | POp.destroy _ closeOk => closeOk = true
  | POp.sweep _ closeOk => closeOk = true
  | POp.destroyAllOp closeOk => closeOk = true

instance : DecidablePred opClosesOk := by
  intro op
  cases op <;> simp [opClosesOk] <;> infer_instance

/-!
ConnectionManager (source: the `ConnectionManager` class).

The supervisor state machine.  Timers are modelled by whether one is
pending; the client by whether one is attached; the `connection:failed`
emissions are counted so that terminal failure is observable.  The
outcome of one `connect()` run — factory refusal, readiness timeout or
success — is decided by the environment and passed as an argument.
-/

inductive ConnState where
  | disconnected
  | connecting
  | connected
  | failed
  | destroyed
deriving DecidableEq, Repr

structure CM where
  reconnectAttempts : Nat
  maxReconnectAttempts : Nat
  connectionState : ConnState
  isDestroyed : Bool
  reconnectTimer : Bool
  healthCheckTimer : Bool
  hasClient : Bool
  failedEvents : Nat
deriving DecidableEq, Repr

/-- Constructor defaults: `maxReconnectAttempts = 10`. -/
def initCM : CM :=
  { reconnectAttempts := 0, maxReconnectAttempts := 10,
    connectionState := ConnState.disconnected, isDestroyed := false,
    reconnectTimer := false, healthCheckTimer := false, hasClient := false,
    failedEvents := 0 }

/-- How one `connect()` run ends: the factory returns `success: false`
(no client is attached), or a client is attached but readiness times
out, or the connection comes up. -/
inductive ConnectOutcome where
  | success
  | factoryFail
  | timeoutFail
deriving DecidableEq, Repr

/-- Source `scheduleReconnect`: clear any pending timer and arm a new one. -/
def scheduleReconnect (s : CM) : CM :=
  { s with reconnectTimer := true }

/-- Source `handleConnectionFailure`: bump the attempt counter; at the
maximum, emit the terminal `connection:failed` event and stop; otherwise
schedule a reconnect. -/
def handleConnectionFailure (s : CM) : CM :=
  let s := { s with reconnectAttempts := s.reconnectAttempts + 1 }
  if s.maxReconnectAttempts ≤ s.reconnectAttempts then
    { s with connectionState := ConnState.failed,
             failedEvents := s.failedEvents + 1 }
  else scheduleReconnect s

/-- Source `connect()`: a no-op once destroyed; otherwise enter
`connecting`, run the factory and wait for readiness.  On success the
attempt counter resets and the health-check loop starts; on any failure
the catch block sets `connectionState = 'failed'` before delegating to
`handleConnectionFailure`. -/
def connectStep (s : CM) (o : ConnectOutcome) : CM :=
  if s.isDestroyed then s
  else
    let s := { s with connectionState := ConnState.connecting }
    match o with
    | ConnectOutcome.success =>
        { s with hasClient := true, connectionState := ConnState.connected,
                 reconnectAttempts := 0, healthCheckTimer := true }
    | ConnectOutcome.factoryFail =>
        handleConnectionFailure { s with connectionState := ConnState.failed }
    | ConnectOutcome.timeoutFail =>
        handleConnectionFailure
          { s with hasClient := true, connectionState := ConnState.failed }

/-- Source `handleConnectionLost`: drop to `disconnected`, stop the health
loop and — unless destroyed — schedule a reconnect.  (The attempt counter
is not touched here.) -/
def handleConnectionLost (s : CM) : CM :=
  let s := { s with connectionState := ConnState.disconnected,
                    healthCheckTimer := false }
  if s.isDestroyed then s else scheduleReconnect s

/-- One supervisor event.  `clientLost` stands for any client-originated
loss signal (disconnect, auth failure, page closed or errored); it can
only fire while a client is attached and the manager's own listeners are
still installed (destroy removes them).  `destroyOp` carries whether the
underlying `client.destroy()` succeeds — the source catches a failure. -/
inductive CMOp where
  | connectOp (o : ConnectOutcome)
  | timerFire (o : ConnectOutcome)
  | clientLost
  | healthProbe (ok : Bool)
  | forceReconnectOp (o : ConnectOutcome)
  | destroyOp (clientDestroyOk : Bool)
deriving DecidableEq, Repr

def cmStep (s : CM) : CMOp → CM
  | CMOp.connectOp o => connectStep s o
  | CMOp.timerFire o =>
      if s.reconnectTimer then connectStep { s with reconnectTimer := false } o
      else s
  | CMOp.clientLost =>
      if s.hasClient ∧ ¬s.isDestroyed then handleConnectionLost s else s
  | CMOp.healthProbe ok =>
      if s.hasClient ∧ s.connectionState = ConnState.connected then
        if ok then s else handleConnectionLost s
      else s
  | CMOp.forceReconnectOp o =>
      let s := { s with reconnectAttempts := 0 }
      let s := if s.hasClient then { s with hasClient := false } else s
      connectStep s o
  | CMOp.destroyOp _ =>
      { s with isDestroyed := true, connectionState := ConnState.destroyed,
               reconnectTimer := false, healthCheckTimer := false,
               hasClient := false }

def runCM (s : CM) (ops : List CMOp) : CM :=
  ops.foldl cmStep s

/-- The absorbing shape a manager has right after `destroy()`: destroyed,
no timers, no client. -/
def DestroyedSink (s : CM) : Prop :=
  s.isDestroyed = true ∧ s.reconnectTimer = false ∧ s.healthCheckTimer = false ∧
  s.hasClient = false ∧ s.connectionState = ConnState.destroyed

/-!
Backoff arithmetic of `scheduleReconnect` (source constants
`baseReconnectDelay = 2000`, `maxReconnectDelay = 60000`), over `ℚ`.
-/

def baseReconnectDelay : ℚ := 2000

def maxReconnectDelay : ℚ := 60000

/-- The undithered delay `min(base * 2^attempts, cap)`. -/
def rawDelay (attempts : Nat) : ℚ :=
  min (baseReconnectDelay * 2 ^ attempts) maxReconnectDelay

/-- The scheduled delay: `delay + delay * 0.25 * (rand - 0.5)` where
`rand` is the `Math.random()` draw. -/
def finalDelay (attempts : Nat) (rand : ℚ) : ℚ :=
  rawDelay attempts + rawDelay attempts * (1 / 4) * (rand - 1 / 2)

/-!
SessionMonitor (source: the `SessionMonitor` class): classification of a
tracked session by `checkSessionHealth` and the corrective actions of
`performCorrectiveActions`.
-/

inductive HealthStatus where
  | healthy
  | unhealthy
  | stale
deriving DecidableEq, Repr

/-- The slice of a tracked `sessionInfo` that `checkSessionHealth` reads:
when it was last seen, its reconnect count, and the observable state of
its client (`pupPage.isClosed()` and the `getState()` round trip, the
latter `none` when the client exposes no `getState` function). -/
inductive StateProbe where
  | noStateFn
  | threw (msg : String)
  | state (st : String)
deriving DecidableEq, Repr

structure SessionInfo where
  sessionId : String
  lastSeenMs : Nat
  reconnectCount : Nat
  pupPagePresent : Bool
  pupPageClosed : Bool
  getStateResult : StateProbe
deriving DecidableEq, Repr

structure SessionHealth where
  sessionId : String
  status : HealthStatus
  reconnectCount : Nat
deriving DecidableEq, Repr

/-- Source `checkSessionHealth` thresholds: stale after 5 minutes of
inactivity, unhealthy after 2; a closed page, a `getState` error or a
state other than `CONNECTED` forces `unhealthy`. -/
def checkSessionHealth (now : Nat) (si : SessionInfo) : SessionHealth :=
  let timeSinceLastSeen := now - si.lastSeenMs
  let s0 :=
    if 300000 < timeSinceLastSeen then HealthStatus.stale
    else if 120000 < timeSinceLastSeen then HealthStatus.unhealthy
    else HealthStatus.healthy
  let s1 :=
    if si.pupPagePresent && si.pupPageClosed then HealthStatus.unhealthy else s0
  let s2 :=
    match si.getStateResult with
    | StateProbe.noStateFn => s1
    | StateProbe.threw _ => HealthStatus.unhealthy
    | StateProbe.state st => if st = "CONNECTED" then s1 else HealthStatus.unhealthy
  { sessionId := si.sessionId, status := s2, reconnectCount := si.reconnectCount }

/-- The forced reconnects of `performCorrectiveActions`: registered stale
sessions that still have a connection manager. -/
def correctiveReconnects (registered : String → Bool) (hasCM : String → Bool)
    (report : List SessionHealth) : List String :=
  ((report.filter (fun h => registered h.sessionId)).filter
    (fun h => decide (h.status = HealthStatus.stale) && hasCM h.sessionId)).map
    (fun h => h.sessionId)

/-- The `session:cleanup` emissions of `performCorrectiveActions`:
registered sessions classified unhealthy whose reconnect count exceeds
the hard ceiling 10. -/
def correctiveCleanups (registered : String → Bool)
    (report : List SessionHealth) : List String :=
  ((report.filter (fun h => registered h.sessionId)).filter
    (fun h => decide (h.status = HealthStatus.unhealthy) &&
      decide (10 < h.reconnectCount))).map
    (fun h => h.sessionId)

/-- Source `performCorrectiveActions`: walk the health report; for each
entry still registered (`sessions.get` succeeds), force a reconnect when
it is stale and has a connection manager, and emit `session:cleanup`
when it is unhealthy with a reconnect count above 10.  The result
collects the session ids of the forced reconnects and of the emitted
cleanup signals, in report order. -/
def performCorrectiveActions (registered : String → Bool) (hasCM : String → Bool)
    (report : List SessionHealth) : List String × List String :=
  (correctiveReconnects registered hasCM report,
   correctiveCleanups registered report)

/-!
SessionCleaner (source: `src/utils/sessionCleaner.js`): the orphan
session sweep.  A directory entry carries the name and modification time
returned by `fs.stat`; the per-session process probe is the outcome of
the `ps aux` pipeline, an external call.
-/

structure DirEntry where
  name : String
  mtimeMs : Nat
deriving DecidableEq, Repr

/-- Environment of one sweep: the clock and, per session id, the result of
`execAsync` on the `ps aux` grep pipeline. -/
structure CleanEnv where
  now : Nat
  psGrep : String → Except String String

/-- Source constant `maxOrphanAge` (1 hour). -/
def maxOrphanAge : Nat := 3600000

/-- The `stdout.trim()` of the source, modelled on the character list:
drop whitespace from both ends. -/
def jsTrim (s : String) : List Char :=
  ((s.data.dropWhile Char.isWhitespace).reverse.dropWhile Char.isWhitespace).reverse

/-- Source `SessionCleaner.checkForActiveProcess`: nonempty trimmed output
of the grep pipeline means an associated process is running; an `exec`
error yields `false`. -/
def checkForActiveProcess (env : CleanEnv) (sessionId : String) : Bool :=
  match env.psGrep sessionId with
  | Except.ok out => decide (0 < (jsTrim out).length)
  | Except.error _ => false

/-- Source `cleanOrphanSessions` removal test for one directory entry:
only `session-` directories, older than the orphan threshold, with no
active process for the stripped session id. -/
def orphanRemovable (env : CleanEnv) (d : DirEntry) : Bool :=
  d.name.startsWith "session-" &&
  decide (maxOrphanAge < env.now - d.mtimeMs) &&
  !checkForActiveProcess env (d.name.drop 8)

/-- Source `cleanOrphanSessions`: the directories removed by one sweep. -/
def cleanOrphanSessions (env : CleanEnv) (dirs : List DirEntry) : List DirEntry :=
  dirs.filter (orphanRemovable env)

/-!
Concrete fixtures used to evaluate the theorems below on closed inputs.
-/

/-- A pool of capacity 1 whose single browser, owned by session `A`, is
idle with `lastUsed = 0`. -/
def lruPool : Pool :=
  { maxBrowsers := 1,
    browsers := [("A", ⟨1, true, true, 10⟩)],
    browserStatus := [("A", ⟨0, 0, "A"⟩)],
    inUse := [],
    stats := ⟨1, 0, 0, 0⟩ }

/-- A pool of capacity 2 whose single browser, owned by session `A`, is
healthy and in use. -/
def reusePool : Pool :=
  { maxBrowsers := 2,
    browsers := [("A", ⟨1, true, true, 10⟩)],
    browserStatus := [("A", ⟨0, 0, "A"⟩)],
    inUse := ["A"],
    stats := ⟨1, 0, 0, 0⟩ }

/-- A sweep environment whose process listing always shows a worker. -/
def busyCleanEnv : CleanEnv :=
  { now := 100000000, psGrep := fun _ => Except.ok "chrome --user-data-dir=a" }

/-!
Bookkeeping invariants of the pool: `browsers` and `browserStatus` hold
the same keys, and every in-use session has a browser.
-/

def sameKeys (p : Pool) : Prop :=
  ∀ k, (alGet p.browsers k).isSome ↔ (alGet p.browserStatus k).isSome

def inUseSub (p : Pool) : Prop :=
  ∀ u, u ∈ p.inUse → (alGet p.browsers u).isSome

def KInv (p : Pool) : Prop := sameKeys p ∧ inUseSub p

def PoolOk (p : Pool) : Prop :=
  KInv p ∧ p.browsers.length ≤ p.maxBrowsers

/-! Basic lemmas about the association-list operations. -/

theorem alGet_alSet_self {α : Type} (m : List (String × α)) (k : String) (v : α) :
    alGet (alSet m k v) k = some v := by
  induction m with
  | nil => simp [alSet, alGet]
  | cons e rest ih =>
      by_cases h : e.1 = k
      · cases e; simp_all [alSet, alGet]
      · cases e; simp_all [alSet, alGet]

theorem alGet_alSet_ne {α : Type} (m : List (String × α)) (k k' : String) (v : α)
    (h : k' ≠ k) : alGet (alSet m k v) k' = alGet m k' := by
  have hkk : k ≠ k' := Ne.symm h
  induction m with
  | nil => simp [alSet, alGet, hkk]
  | cons e rest ih =>
      cases e with
      | mk a b =>
        by_cases hak : a = k
        · subst hak
          simp [alSet, alGet, hkk]
        · simp only [alSet, if_neg hak]
          by_cases hak' : a = k'
          · simp [alGet, hak']
          · simp [alGet, hak', ih]

theorem alGet_alErase_self {α : Type} (m : List (String × α)) (k : String) :
    alGet (alErase m k) k = none := by
  induction m with
  | nil => simp [alErase, alGet]
  | cons e rest ih =>
      cases e with
      | mk a b =>
        by_cases hak : a = k
        · simp [alErase, hak, ih]
        · simp [alErase, hak, alGet, ih]

theorem alGet_alErase_ne {α : Type} (m : List (String × α)) (k k' : String)
    (h : k' ≠ k) : alGet (alErase m k) k' = alGet m k' := by
  have hkk : k ≠ k' := Ne.symm h
  induction m with
  | nil => simp [alErase]
  | cons e rest ih =>
      cases e with
      | mk a b =>
        by_cases hak : a = k
        · subst hak
          simp [alErase, alGet, hkk, ih]
        · simp only [alErase, if_neg hak]
          by_cases hak' : a = k'
          · simp [alGet, hak', ih]
          · simp [alGet, hak', ih]

theorem alGet_alUpdate_isSome {α : Type} (m : List (String × α)) (k k' : String)
    (f : α → α) : (alGet (alUpdate m k f) k').isSome = (alGet m k').isSome := by
  induction m with
  | nil => simp [alUpdate]
  | cons e rest ih =>
      cases e with
      | mk a b =>
        by_cases hak : a = k
        · subst hak
          by_cases hk' : a = k'
          · simp [alUpdate, alGet, hk']
          · simp [alUpdate, alGet, hk', ih]
        · by_cases hk' : a = k'
          · subst hk'
            simp [alUpdate, alGet, hak]
          · simp [alUpdate, alGet, hak, hk', ih]

theorem length_alUpdate {α : Type} (m : List (String × α)) (k : String) (f : α → α) :
    (alUpdate m k f).length = m.length := by
  induction m with
  | nil => simp [alUpdate]
  | cons e rest ih =>
      cases e with
      | mk a b =>
        by_cases hak : a = k <;> simp [alUpdate, hak, ih]

theorem length_alSet_present {α : Type} (m : List (String × α)) (k : String) (v : α)
    (h : (alGet m k).isSome) : (alSet m k v).length = m.length := by
  induction m with
  | nil => simp [alGet] at h
  | cons e rest ih =>
      cases e with
      | mk a b =>
        by_cases hak : a = k
        · simp [alSet, hak]
        · simp only [alGet, if_neg hak] at h
          simp [alSet, hak, ih h]

theorem length_alSet_absent {α : Type} (m : List (String × α)) (k : String) (v : α)
    (h : alGet m k = none) : (alSet m k v).length = m.length + 1 := by
  induction m with
  | nil => simp [alSet]
  | cons e rest ih =>
      cases e with
      | mk a b =>
        by_cases hak : a = k
        · simp [alGet, hak] at h
        · simp only [alGet, if_neg hak] at h
          simp [alSet, hak, ih h]

theorem length_alErase_le {α : Type} (m : List (String × α)) (k : String) :
    (alErase m k).length ≤ m.length := by
  induction m with
  | nil => simp [alErase]
  | cons e rest ih =>
      cases e with
      | mk a b =>
        by_cases hak : a = k
        · simp only [alErase, if_pos hak]
          exact Nat.le_succ_of_le ih
        · simp only [alErase, if_neg hak, List.length_cons]
          exact Nat.succ_le_succ ih

theorem length_alErase_lt {α : Type} (m : List (String × α)) (k : String)
    (h : (alGet m k).isSome) : (alErase m k).length + 1 ≤ m.length := by
  induction m with
  | nil => simp [alGet] at h
  | cons e rest ih =>
      cases e with
      | mk a b =>
        by_cases hak : a = k
        · simp only [alErase, if_pos hak, List.length_cons]
          exact Nat.succ_le_succ (length_alErase_le rest k)
        · simp only [alGet, if_neg hak] at h
          simp only [alErase, if_neg hak, List.length_cons]
          exact Nat.succ_le_succ (ih h)

theorem mem_suDel {s : List String} {x k : String} :
    x ∈ suDel s k ↔ x ∈ s ∧ x ≠ k := by
  induction s with
  | nil => simp [suDel]
  | cons a rest ih =>
      by_cases hak : a = k
      · subst hak
        rw [suDel, if_pos rfl, ih, List.mem_cons]
        constructor
        · rintro ⟨hx, hne⟩; exact ⟨Or.inr hx, hne⟩
        · rintro ⟨hx, hne⟩
          cases hx with
          | inl h => exact absurd h hne
          | inr h => exact ⟨h, hne⟩
      · rw [suDel, if_neg hak, List.mem_cons, List.mem_cons, ih]
        constructor
        · rintro (rfl | ⟨hx, hne⟩)
          · exact ⟨Or.inl rfl, hak⟩
          · exact ⟨Or.inr hx, hne⟩
        · rintro ⟨hx, hne⟩
          cases hx with
          | inl h => exact Or.inl h
          | inr h => exact Or.inr ⟨h, hne⟩

theorem mem_suAdd {s : List String} {x k : String} :
    x ∈ suAdd s k ↔ x ∈ s ∨ x = k := by
  by_cases h : k ∈ s
  · constructor
    · intro hx; exact Or.inl (by simpa [suAdd, h] using hx)
    · intro hx
      cases hx with
      | inl hx => simpa [suAdd, h] using hx
      | inr hx => subst hx; simp [suAdd, h]
  · simp [suAdd, h, List.mem_append]

/-!
Lemmas about the `freeOldestBrowser` selection loop.
-/

theorem pickOldest_snd_le (inUse : List String) (l : List (String × BStatus))
    (acc : Option String × Nat) : (pickOldest inUse l acc).2 ≤ acc.2 := by
  induction l generalizing acc with
  | nil => simp [pickOldest]
  | cons e rest ih =>
      cases e with
      | mk sid st =>
        cases acc with
        | mk cur t =>
          by_cases h : sid ∉ inUse ∧ st.lastUsed < t
          · simp only [pickOldest, if_pos h]
            exact le_trans (ih (some sid, st.lastUsed)) (le_of_lt h.2)
          · simp only [pickOldest, if_neg h]
            exact ih (cur, t)

theorem pickOldest_min (inUse : List String) (l : List (String × BStatus))
    (acc : Option String × Nat) (sid : String) (st : BStatus)
    (hmem : (sid, st) ∈ l) (hidle : sid ∉ inUse) :
    (pickOldest inUse l acc).2 ≤ st.lastUsed := by
  induction l generalizing acc with
  | nil => simp at hmem
  | cons e rest ih =>
      cases e with
      | mk sid' st' =>
        cases acc with
        | mk cur t =>
          rcases List.mem_cons.mp hmem with heq | htail
          · obtain ⟨h1, h2⟩ := Prod.mk.injEq .. ▸ heq
            subst h1; subst h2
            by_cases h : sid ∉ inUse ∧ st.lastUsed < t
            · simp only [pickOldest, if_pos h]
              exact pickOldest_snd_le inUse rest (some sid, st.lastUsed)
            · have ht : t ≤ st.lastUsed := by
                rcases not_and_or.mp h with h' | h'
                · exact absurd hidle h'
                · exact le_of_not_lt h'
              simp only [pickOldest, if_neg h]
              exact le_trans (pickOldest_snd_le inUse rest (cur, t)) ht
          · by_cases h : sid' ∉ inUse ∧ st'.lastUsed < t
            · simp only [pickOldest, if_pos h]
              exact ih (some sid', st'.lastUsed) htail
            · simp only [pickOldest, if_neg h]
              exact ih (cur, t) htail

theorem pickOldest_spec (inUse : List String) (l : List (String × BStatus))
    (cur : Option String) (t : Nat) :
    pickOldest inUse l (cur, t) = (cur, t) ∨
      ∃ sid st, (sid, st) ∈ l ∧ sid ∉ inUse ∧
        (pickOldest inUse l (cur, t)).1 = some sid ∧
        (pickOldest inUse l (cur, t)).2 = st.lastUsed ∧ st.lastUsed < t := by
  induction l generalizing cur t with
  | nil => exact Or.inl rfl
  | cons e rest ih =>
      cases e with
      | mk sid' st' =>
        by_cases h : sid' ∉ inUse ∧ st'.lastUsed < t
        · simp only [pickOldest, if_pos h]
          rcases ih (some sid') st'.lastUsed with heq | ⟨sid, st, hmem, hidle, h1, h2, h3⟩
          · refine Or.inr ⟨sid', st', List.mem_cons_self .., h.1, ?_, ?_, h.2⟩
            · rw [heq]
            · rw [heq]
          · exact Or.inr ⟨sid, st, List.mem_cons_of_mem _ hmem, hidle, h1, h2,
              lt_trans h3 h.2⟩
        · simp only [pickOldest, if_neg h]
          rcases ih cur t with heq | ⟨sid, st, hmem, hidle, h1, h2, h3⟩
          · exact Or.inl heq
          · exact Or.inr ⟨sid, st, List.mem_cons_of_mem _ hmem, hidle, h1, h2, h3⟩

theorem freeOldestChoice_some {p : Pool} {now : Nat} {e : String}
    (h : freeOldestChoice p now = some e) :
    ∃ st, (e, st) ∈ p.browserStatus ∧ e ∉ p.inUse ∧ st.lastUsed < now ∧
      ∀ sid' st', (sid', st') ∈ p.browserStatus → sid' ∉ p.inUse →
        st.lastUsed ≤ st'.lastUsed := by
  rcases pickOldest_spec p.inUse p.browserStatus none now with heq |
    ⟨sid, st, hmem, hidle, h1, h2, h3⟩
  · rw [freeOldestChoice, heq] at h
    simp at h
  · rw [freeOldestChoice, h1] at h
    obtain rfl : sid = e := Option.some.injEq .. ▸ h
    refine ⟨st, hmem, hidle, h3, ?_⟩
    intro sid' st' hmem' hidle'
    have := pickOldest_min p.inUse p.browserStatus (none, now) sid' st' hmem' hidle'
    rw [h2] at this
    exact this

theorem freeOldestChoice_none {p : Pool} {now : Nat}
    (h : freeOldestChoice p now = none) :
    ∀ sid st, (sid, st) ∈ p.browserStatus → sid ∉ p.inUse →
      now ≤ st.lastUsed := by
  intro sid st hmem hidle
  have hmin := pickOldest_min p.inUse p.browserStatus (none, now) sid st hmem hidle
  rcases pickOldest_spec p.inUse p.browserStatus none now with heq |
    ⟨sid', st', _, _, h1, _, _⟩
  · rw [heq] at hmin
    exact hmin
  · rw [freeOldestChoice, h1] at h
    simp at h

theorem alGet_isSome_of_mem {α : Type} {m : List (String × α)} {k : String} {v : α}
    (h : (k, v) ∈ m) : (alGet m k).isSome := by
  induction m with
  | nil => simp at h
  | cons e rest ih =>
      cases e with
      | mk a b =>
        rcases List.mem_cons.mp h with heq | htail
        · obtain ⟨h1, _⟩ := Prod.mk.injEq .. ▸ heq
          subst h1
          simp [alGet]
        · by_cases hak : a = k
          · simp [alGet, hak]
          · simp [alGet, hak, ih htail]

theorem destroy_of_closeFail (p : Pool) (sid : String) :
    destroyBrowserForSession p sid false = p := by
  unfold destroyBrowserForSession
  split <;> rfl

theorem destroy_of_absent (p : Pool) (sid : String) (c : Bool)
    (h : alGet p.browsers sid = none) :
    destroyBrowserForSession p sid c = p := by
  unfold destroyBrowserForSession
  rw [h]
  rfl

theorem destroy_of_present (p : Pool) (sid : String)
    (h : (alGet p.browsers sid).isSome) :
    destroyBrowserForSession p sid true =
      { p with
        browsers := alErase p.browsers sid,
        browserStatus := alErase p.browserStatus sid,
        inUse := suDel p.inUse sid,
        stats := { p.stats with destroyed := p.stats.destroyed + 1 } } := by
  unfold destroyBrowserForSession
  rw [if_pos h, if_pos rfl]

theorem destroy_browsers_length_le (p : Pool) (sid : String) (c : Bool) :
    (destroyBrowserForSession p sid c).browsers.length ≤ p.browsers.length := by
  unfold destroyBrowserForSession
  split
  · split
    · exact length_alErase_le p.browsers sid
    · exact le_refl _
  · exact le_refl _

theorem destroy_maxBrowsers (p : Pool) (sid : String) (c : Bool) :
    (destroyBrowserForSession p sid c).maxBrowsers = p.maxBrowsers := by
  unfold destroyBrowserForSession
  split
  · split <;> rfl
  · rfl

theorem KInv_destroy {p : Pool} (sid : String) (c : Bool) (h : KInv p) :
    KInv (destroyBrowserForSession p sid c) := by
  obtain ⟨hkeys, hsub⟩ := h
  cases c with
  | false => rw [destroy_of_closeFail]; exact ⟨hkeys, hsub⟩
  | true =>
      rcases hget : alGet p.browsers sid with _ | b
      · rw [destroy_of_absent p sid true hget]; exact ⟨hkeys, hsub⟩
      · rw [destroy_of_present p sid (by rw [hget]; rfl)]
        constructor
        · intro k
          by_cases hk : k = sid
          · subst hk
            simp [alGet_alErase_self]
          · simp only [alGet_alErase_ne _ _ _ hk]
            exact hkeys k
        · intro u hu
          obtain ⟨hmem, hne⟩ := mem_suDel.mp hu
          simp only [alGet_alErase_ne _ _ _ hne]
          exact hsub u hmem

theorem register_maxBrowsers (p : Pool) (sid : String) (now : Nat) (fresh : Browser) :
    (registerNewBrowser p sid now fresh).1.maxBrowsers = p.maxBrowsers := rfl

theorem KInv_register {p : Pool} (sid : String) (now : Nat) (fresh : Browser)
    (h : KInv p) : KInv (registerNewBrowser p sid now fresh).1 := by
  obtain ⟨hkeys, hsub⟩ := h
  constructor
  · intro k
    by_cases hk : k = sid
    · subst hk
      simp [registerNewBrowser, alGet_alSet_self]
    · simp only [registerNewBrowser, alGet_alSet_ne _ _ _ _ hk]
      exact hkeys k
  · intro u hu
    simp only [registerNewBrowser] at hu ⊢
    rcases mem_suAdd.mp hu with hmem | rfl
    · by_cases hk : u = sid
      · subst hk
        simp [alGet_alSet_self]
      · simp only [alGet_alSet_ne _ _ _ _ hk]
        exact hsub u hmem
    · simp [alGet_alSet_self]

theorem acquireSlot_maxBrowsers (p : Pool) (sid : String) (now : Nat)
    (fresh : Browser) (c : Bool) :
    (acquireSlot p sid now fresh c).1.maxBrowsers = p.maxBrowsers := by
  unfold acquireSlot
  split
  · rcases freeOldestChoice p now with _ | victim
    · rfl
    · simp only []
      rw [register_maxBrowsers, destroy_maxBrowsers]
  · rw [register_maxBrowsers]

theorem KInv_acquireSlot {p : Pool} (sid : String) (now : Nat) (fresh : Browser)
    (c : Bool) (h : KInv p) : KInv (acquireSlot p sid now fresh c).1 := by
  unfold acquireSlot
  split
  · rcases freeOldestChoice p now with _ | victim
    · exact ⟨h.1, h.2⟩
    · exact KInv_register _ _ _ (KInv_destroy _ _ h)
  · exact KInv_register _ _ _ h

theorem getBrowser_maxBrowsers (p : Pool) (sid : String) (now : Nat)
    (fresh : Browser) (c : Bool) :
    (getBrowserForSession p sid now fresh c).1.maxBrowsers = p.maxBrowsers := by
  unfold getBrowserForSession
  rcases alGet p.browsers sid with _ | b
  · rw [acquireSlot_maxBrowsers]
  · simp only []
    split
    · rfl
    · rw [acquireSlot_maxBrowsers, destroy_maxBrowsers]

theorem KInv_getBrowser {p : Pool} (sid : String) (now : Nat) (fresh : Browser)
    (c : Bool) (h : KInv p) : KInv (getBrowserForSession p sid now fresh c).1 := by
  unfold getBrowserForSession
  rcases hget : alGet p.browsers sid with _ | b
  · exact KInv_acquireSlot _ _ _ _ h
  · simp only []
    split
    · constructor
      · intro k
        have : (alGet (alUpdate p.browserStatus sid
            (fun st => { st with lastUsed := now })) k).isSome =
            (alGet p.browserStatus k).isSome :=
          alGet_alUpdate_isSome _ _ _ _
        simp only [this]
        exact h.1 k
      · intro u hu
        rcases mem_suAdd.mp hu with hmem | rfl
        · exact h.2 u hmem
        · rw [hget]; rfl
    · exact KInv_acquireSlot _ _ _ _ (KInv_destroy _ _ h)

theorem KInv_release {p : Pool} (sid : String) (now : Nat) (h : KInv p) :
    KInv (releaseBrowserForSession p sid now) := by
  constructor
  · intro k
    simp only [releaseBrowserForSession]
    split
    · have : (alGet (alUpdate p.browserStatus sid
          (fun st => { st with lastUsed := now })) k).isSome =
          (alGet p.browserStatus k).isSome :=
        alGet_alUpdate_isSome _ _ _ _
      simp only [this]
      exact h.1 k
    · exact h.1 k
  · intro u hu
    simp only [releaseBrowserForSession] at hu
    exact h.2 u (mem_suDel.mp hu).1

theorem KInv_foldl_destroy {p : Pool} (l : List String) (c : Bool) (h : KInv p) :
    KInv (l.foldl (fun q sid => destroyBrowserForSession q sid c) p) := by
  induction l generalizing p with
  | nil => exact h
  | cons x rest ih => exact ih (KInv_destroy x c h)

theorem foldl_destroy_length_le (p : Pool) (l : List String) (c : Bool) :
    (l.foldl (fun q sid => destroyBrowserForSession q sid c) p).browsers.length ≤
      p.browsers.length := by
  induction l generalizing p with
  | nil => exact le_refl _
  | cons x rest ih =>
      exact le_trans (ih (destroyBrowserForSession p x c))
        (destroy_browsers_length_le p x c)

theorem foldl_destroy_maxBrowsers (p : Pool) (l : List String) (c : Bool) :
    (l.foldl (fun q sid => destroyBrowserForSession q sid c) p).maxBrowsers =
      p.maxBrowsers := by
  induction l generalizing p with
  | nil => rfl
  | cons x rest ih =>
      rw [List.foldl_cons, ih (destroyBrowserForSession p x c), destroy_maxBrowsers]

theorem KInv_poolStep {p : Pool} (op : POp) (h : KInv p) : KInv (poolStep p op) := by
  cases op with
  | acquire sid now fresh c => exact KInv_getBrowser sid now fresh c h
  | release sid now => exact KInv_release sid now h
  | destroy sid c => exact KInv_destroy sid c h
  | sweep now c => exact KInv_foldl_destroy _ c h
  | destroyAllOp c => exact KInv_foldl_destroy _ c h

theorem poolStep_maxBrowsers (p : Pool) (op : POp) :
    (poolStep p op).maxBrowsers = p.maxBrowsers := by
  cases op with
  | acquire sid now fresh c => exact getBrowser_maxBrowsers p sid now fresh c
  | release sid now => rfl
  | destroy sid c => exact destroy_maxBrowsers p sid c
  | sweep now c => exact foldl_destroy_maxBrowsers p _ c
  | destroyAllOp c => exact foldl_destroy_maxBrowsers p _ c

theorem register_length_absent (p : Pool) (sid : String) (now : Nat)
    (fresh : Browser) (h : alGet p.browsers sid = none) :
    (registerNewBrowser p sid now fresh).1.browsers.length =
      p.browsers.length + 1 :=
  length_alSet_absent p.browsers sid fresh h

theorem acquireSlot_capacity {p : Pool} (sid : String) (now : Nat)
    (fresh : Browser) (hkeys : sameKeys p)
    (hcap : p.browsers.length ≤ p.maxBrowsers)
    (habs : alGet p.browsers sid = none) :
    (acquireSlot p sid now fresh true).1.browsers.length ≤ p.maxBrowsers := by
  unfold acquireSlot
  split
  · rcases hch : freeOldestChoice p now with _ | victim
    · exact hcap
    · obtain ⟨st, hmem, _, _, _⟩ := freeOldestChoice_some hch
      have hvs : (alGet p.browserStatus victim).isSome := alGet_isSome_of_mem hmem
      have hvb : (alGet p.browsers victim).isSome := (hkeys victim).mpr hvs
      simp only []
      rw [destroy_of_present p victim hvb]
      have hne : sid ≠ victim := by
        intro heq
        rw [← heq, habs] at hvb
        exact Bool.noConfusion hvb
      have habs' : alGet (alErase p.browsers victim) sid = none := by
        rw [alGet_alErase_ne _ _ _ hne]
        exact habs
      rw [register_length_absent _ _ _ _ habs']
      exact le_trans (length_alErase_lt p.browsers victim hvb) hcap
  · rw [register_length_absent _ _ _ _ habs]
    exact Nat.succ_le_of_lt (Nat.lt_of_not_le (by assumption))

theorem getBrowser_capacity {p : Pool} (sid : String) (now : Nat)
    (fresh : Browser) (h : KInv p)
    (hcap : p.browsers.length ≤ p.maxBrowsers) :
    (getBrowserForSession p sid now fresh true).1.browsers.length ≤
      p.maxBrowsers := by
  unfold getBrowserForSession
  rcases hget : alGet p.browsers sid with _ | b
  · exact acquireSlot_capacity sid now fresh h.1 hcap hget
  · simp only []
    split
    · exact hcap
    · have hpres : (alGet p.browsers sid).isSome := by rw [hget]; rfl
      have hq := destroy_of_present p sid hpres
      have hkq : sameKeys (destroyBrowserForSession p sid true) :=
        (KInv_destroy sid true h).1
      have hlq : (destroyBrowserForSession p sid true).browsers.length ≤
          (destroyBrowserForSession p sid true).maxBrowsers := by
        rw [destroy_maxBrowsers]
        exact le_trans (destroy_browsers_length_le p sid true) hcap
      have habsq : alGet (destroyBrowserForSession p sid true).browsers sid = none := by
        rw [hq]
        exact alGet_alErase_self p.browsers sid
      have := acquireSlot_capacity sid now fresh hkq hlq habsq
      rw [destroy_maxBrowsers] at this
      exact this

theorem poolStep_capacity {p : Pool} (op : POp) (hok : opClosesOk op)
    (h : KInv p) (hcap : p.browsers.length ≤ p.maxBrowsers) :
    (poolStep p op).browsers.length ≤ p.maxBrowsers := by
  cases op with
  | acquire sid now fresh c =>
      have hc : c = true := hok
      subst hc
      exact getBrowser_capacity sid now fresh h hcap
  | release sid now => exact hcap
  | destroy sid c => exact le_trans (destroy_browsers_length_le p sid c) hcap
  | sweep now c => exact le_trans (foldl_destroy_length_le p _ c) hcap
  | destroyAllOp c => exact le_trans (foldl_destroy_length_le p _ c) hcap

theorem PoolOk_runPool {p : Pool} {ops : List POp}
    (hok : ∀ op ∈ ops, opClosesOk op) (h : PoolOk p) : PoolOk (runPool p ops) := by
  induction ops generalizing p with
  | nil => exact h
  | cons op rest ih =>
      have hstep : PoolOk (poolStep p op) := by
        refine ⟨KInv_poolStep op h.1, ?_⟩
        rw [poolStep_maxBrowsers]
        exact poolStep_capacity op (hok op (List.mem_cons_self ..)) h.1 h.2
      exact ih (fun o ho => hok o (List.mem_cons_of_mem _ ho)) hstep

theorem runPool_maxBrowsers (p : Pool) (ops : List POp) :
    (runPool p ops).maxBrowsers = p.maxBrowsers := by
  induction ops generalizing p with
  | nil => rfl
  | cons op rest ih =>
      rw [runPool, List.foldl_cons]
      rw [show List.foldl poolStep (poolStep p op) rest = runPool (poolStep p op) rest from rfl]
      rw [ih (poolStep p op), poolStep_maxBrowsers]

theorem alGet_none_of_not_mem {α : Type} {m : List (String × α)} {k : String}
    (h : k ∉ m.map Prod.fst) : alGet m k = none := by
  induction m with
  | nil => rfl
  | cons e rest ih =>
      cases e with
      | mk a b =>
        simp only [List.map_cons, List.mem_cons] at h
        push_neg at h
        have hne : ¬a = k := fun heq => h.1 heq.symm
        simp only [alGet, if_neg hne]
        exact ih h.2

theorem alErase_of_absent {α : Type} {m : List (String × α)} {k : String}
    (h : alGet m k = none) : alErase m k = m := by
  induction m with
  | nil => rfl
  | cons e rest ih =>
      cases e with
      | mk a b =>
        by_cases hak : a = k
        · rw [alGet, if_pos hak] at h
          exact Option.noConfusion h
        · rw [alGet, if_neg hak] at h
          rw [alErase, if_neg hak, ih h]

theorem length_alErase_nodup {α : Type} {m : List (String × α)} {k : String}
    (hnd : (m.map Prod.fst).Nodup) (h : (alGet m k).isSome) :
    (alErase m k).length + 1 = m.length := by
  induction m with
  | nil => simp [alGet] at h
  | cons e rest ih =>
      cases e with
      | mk a b =>
        simp only [List.map_cons, List.nodup_cons] at hnd
        by_cases hak : a = k
        · subst hak
          have : alGet rest a = none := alGet_none_of_not_mem hnd.1
          rw [alErase, if_pos rfl, alErase_of_absent this]
          rfl
        · rw [alGet, if_neg hak] at h
          rw [alErase, if_neg hak, List.length_cons, List.length_cons,
            ih hnd.2 h]

/-! Destroyed managers are absorbed: no operation revives a timer, a
client or any non-destroyed state. -/

theorem DestroyedSink_cmStep {s : CM} (h : DestroyedSink s) (op : CMOp) :
    DestroyedSink (cmStep s op) := by
  obtain ⟨h1, h2, h3, h4, h5⟩ := h
  cases op with
  | connectOp o =>
      simp only [cmStep, connectStep, h1, if_true]
      exact ⟨h1, h2, h3, h4, h5⟩
  | timerFire o =>
      simp only [cmStep, h2, if_false]
      exact ⟨h1, h2, h3, h4, h5⟩
  | clientLost =>
      simp only [cmStep, h4]
      simp only [Bool.false_eq_true, false_and, if_false]
      exact ⟨h1, h2, h3, h4, h5⟩
  | healthProbe ok =>
      simp only [cmStep, h4]
      simp only [Bool.false_eq_true, false_and, if_false]
      exact ⟨h1, h2, h3, h4, h5⟩
  | forceReconnectOp o =>
      simp only [cmStep, h4]
      simp only [Bool.false_eq_true, if_false, connectStep, h1, if_true]
      exact ⟨rfl, h2, h3, rfl, h5⟩
  | destroyOp c =>
      exact ⟨rfl, rfl, rfl, rfl, rfl⟩

theorem DestroyedSink_runCM {s : CM} (h : DestroyedSink s) (ops : List CMOp) :
    DestroyedSink (runCM s ops) := by
  induction ops generalizing s with
  | nil => exact h
  | cons op rest ih => exact ih (DestroyedSink_cmStep h op)

/-!
Claim theorems.
-/

/-- C1, counterexample.  The claim that the number of live workers never
exceeds `maxBrowsers` over any serial sequence of acquire, release,
destroy and sweep operations fails: with capacity 1, after acquiring for
`A` and releasing it, an acquire for `B` whose eviction-time
`browser.close()` fails leaves `A` in the map (the swallowed error skips
the bookkeeping) while `freeOldestBrowser` still reports a freed slot,
so `B` is registered as well and the map holds 2 > 1 entries. -/
theorem c1_capacity_cex :
    (mkPool 1).maxBrowsers = 1 ∧
    (runPool (mkPool 1)
      [POp.acquire "A" 10 ⟨1, true, true, 0⟩ true,
       POp.release "A" 20,
       POp.acquire "B" 30 ⟨2, true, true, 0⟩ false]).browsers.length = 2 := by
  decide

/-- C1, amended: for every serial sequence of acquire
(`getBrowserForSession`), release (`releaseBrowserForSession`), destroy
(`destroyBrowserForSession`, `destroyAll`) and sweep (`performCleanup`)
operations in which every underlying `browser.close()` succeeds, the
number of entries of the `browsers` map never exceeds the configured
capacity `maxBrowsers`. -/
theorem c1_capacity_bound (n : Nat) (ops : List POp)
    (hok : ∀ op ∈ ops, opClosesOk op) :
    (runPool (mkPool n) ops).browsers.length ≤ n := by
  have h0 : PoolOk (mkPool n) :=
    ⟨⟨fun k => Iff.rfl, fun u hu => absurd hu (List.not_mem_nil u)⟩, Nat.zero_le n⟩
  have h := (PoolOk_runPool hok h0).2
  rwa [runPool_maxBrowsers] at h

/-- C1, witness: a concrete run of the amended bound. -/
theorem c1_capacity_bound_w :
    (∀ op ∈ ([POp.acquire "A" 5 ⟨1, true, true, 0⟩ true,
              POp.release "A" 6,
              POp.acquire "B" 9 ⟨2, true, true, 0⟩ true] : List POp), opClosesOk op) ∧
    (runPool (mkPool 1)
      [POp.acquire "A" 5 ⟨1, true, true, 0⟩ true,
       POp.release "A" 6,
       POp.acquire "B" 9 ⟨2, true, true, 0⟩ true]).browsers.length ≤ 1 :=
  ⟨by decide, c1_capacity_bound 1 _ (by decide)⟩

/-- C2, counterexample.  The claim that at capacity an acquire for a new
session succeeds whenever at least one idle worker exists fails: in
`lruPool` (capacity 1, session `A` idle with `lastUsed = 0`), an acquire
for `B` at current time 0 returns the capacity error, because
`freeOldestBrowser` starts its strict `lastUsed < oldestTime` comparison
from `Date.now()` and so never selects an idle worker whose `lastUsed`
equals the current time. -/
theorem c2_eviction_cex :
    alGet lruPool.browsers "A" = some ⟨1, true, true, 10⟩ ∧
    "A" ∉ lruPool.inUse ∧
    lruPool.browsers.length = lruPool.maxBrowsers ∧
    (getBrowserForSession lruPool "B" 0 ⟨2, true, true, 0⟩ true).2 =
      AcquireResult.capacityError := by
  decide

/-- C2, amended: at capacity, for a session with no existing worker: if
some idle worker has `lastUsed` strictly earlier than the current time,
the eviction choice is an idle worker attaining the minimum `lastUsed`
among all idle workers, the acquire succeeds with the freshly created
worker, the pool size stays at capacity, the evicted entry is gone and
every in-use worker is untouched; if every idle worker has `lastUsed`
at or after the current time (in particular if no idle worker exists),
the acquire fails with the capacity error and the `browsers` map is
unchanged.  An in-use worker is never evicted. -/
theorem c2_eviction_lru (p : Pool) (sid : String) (now : Nat) (fresh : Browser)
    (hkeys : sameKeys p) (hsub : inUseSub p)
    (hnd : (p.browsers.map Prod.fst).Nodup)
    (habs : alGet p.browsers sid = none)
    (hfull : p.browsers.length = p.maxBrowsers) :
    ((∃ e0 st0, (e0, st0) ∈ p.browserStatus ∧ e0 ∉ p.inUse ∧ st0.lastUsed < now) →
      ∃ e st, freeOldestChoice p now = some e ∧ (e, st) ∈ p.browserStatus ∧
        e ∉ p.inUse ∧
        (∀ e' st', (e', st') ∈ p.browserStatus → e' ∉ p.inUse →
          st.lastUsed ≤ st'.lastUsed) ∧
        (getBrowserForSession p sid now fresh true).2 = AcquireResult.ok fresh ∧
        (getBrowserForSession p sid now fresh true).1.browsers.length = p.maxBrowsers ∧
        alGet (getBrowserForSession p sid now fresh true).1.browsers sid = some fresh ∧
        alGet (getBrowserForSession p sid now fresh true).1.browsers e = none ∧
        (∀ u, u ∈ p.inUse →
          alGet (getBrowserForSession p sid now fresh true).1.browsers u =
            alGet p.browsers u)) ∧
    ((∀ e st, (e, st) ∈ p.browserStatus → e ∉ p.inUse → now ≤ st.lastUsed) →
      (getBrowserForSession p sid now fresh true).2 = AcquireResult.capacityError ∧
      (getBrowserForSession p sid now fresh true).1.browsers = p.browsers) := by
  have hmaxle : p.maxBrowsers ≤ p.browsers.length := le_of_eq hfull.symm
  have hgb : getBrowserForSession p sid now fresh true =
      acquireSlot p sid now fresh true := by
    unfold getBrowserForSession
    rw [habs]
  constructor
  · rintro ⟨e0, st0, hmem0, hidle0, hlt0⟩
    rcases hch : freeOldestChoice p now with _ | e
    · exact absurd (freeOldestChoice_none hch e0 st0 hmem0 hidle0)
        (not_le.mpr hlt0)
    · obtain ⟨st, hmem, hidle, hlt, hmin⟩ := freeOldestChoice_some hch
      have hvs : (alGet p.browserStatus e).isSome := alGet_isSome_of_mem hmem
      have hvb : (alGet p.browsers e).isSome := (hkeys e).mpr hvs
      have hne : sid ≠ e := by
        intro heq
        rw [← heq, habs] at hvb
        exact Bool.noConfusion hvb
      have hq : acquireSlot p sid now fresh true =
          registerNewBrowser (destroyBrowserForSession p e true) sid now fresh := by
        unfold acquireSlot
        rw [if_pos hmaxle, hch]
      have hd := destroy_of_present p e hvb
      have habs' : alGet (alErase p.browsers e) sid = none := by
        rw [alGet_alErase_ne _ _ _ hne]
        exact habs
      refine ⟨e, st, rfl, hmem, hidle, hmin, ?_, ?_, ?_, ?_, ?_⟩
      · rw [hgb, hq]
        rfl
      · rw [hgb, hq]
        simp only [registerNewBrowser, hd]
        rw [length_alSet_absent _ _ _ habs', length_alErase_nodup hnd hvb, hfull]
      · rw [hgb, hq]
        simp only [registerNewBrowser, hd]
        exact alGet_alSet_self _ _ _
      · rw [hgb, hq]
        simp only [registerNewBrowser, hd]
        rw [alGet_alSet_ne _ _ _ _ (Ne.symm hne)]
        exact alGet_alErase_self _ _
      · intro u hu
        have hub : (alGet p.browsers u).isSome := hsub u hu
        have hune : u ≠ sid := by
          intro heq
          rw [heq, habs] at hub
          exact Bool.noConfusion hub
        have huee : u ≠ e := fun heq => hidle (heq ▸ hu)
        rw [hgb, hq]
        simp only [registerNewBrowser, hd]
        rw [alGet_alSet_ne _ _ _ _ hune, alGet_alErase_ne _ _ _ huee]
  · intro hall
    have hchn : freeOldestChoice p now = none := by
      rcases hch : freeOldestChoice p now with _ | e
      · rfl
      · obtain ⟨st, hmem, hidle, hlt, _⟩ := freeOldestChoice_some hch
        exact absurd (hall e st hmem hidle) (not_le.mpr hlt)
    have hq : acquireSlot p sid now fresh true =
        ({ p with stats := { p.stats with errors := p.stats.errors + 1 } },
         AcquireResult.capacityError) := by
      unfold acquireSlot
      rw [if_pos hmaxle, hchn]
    rw [hgb, hq]
    exact ⟨rfl, rfl⟩

/-- C2, witness: on `lruPool` at time 5, acquiring for `B` succeeds with
the fresh worker and the pool stays at capacity 1. -/
theorem c2_eviction_lru_w :
    (getBrowserForSession lruPool "B" 5 ⟨2, true, true, 0⟩ true).2 =
      AcquireResult.ok ⟨2, true, true, 0⟩ ∧
    (getBrowserForSession lruPool "B" 5 ⟨2, true, true, 0⟩ true).1.browsers.length = 1 := by
  have h := c2_eviction_lru lruPool "B" 5 ⟨2, true, true, 0⟩
    (by intro k; by_cases hk : ("A" = k) <;> simp [lruPool, alGet, hk])
    (by intro u hu; exact absurd hu (List.not_mem_nil u))
    (by decide) (by decide) (by decide)
  obtain ⟨e, st, _, _, _, _, hok, hlen, _, _, _⟩ :=
    h.1 ⟨"A", ⟨0, 0, "A"⟩, by decide, by decide, by decide⟩
  exact ⟨hok, hlen⟩

/-- C10, counterexample.  The claim that a destroyed session id never
remains marked in-use fails: destroying session `A` while its
`browser.close()` throws leaves `A` both in the `browsers` map and in
the `inUse` set, because the source's `catch` skips all bookkeeping. -/
theorem c10_bookkeeping_cex :
    "A" ∈ (runPool (mkPool 2)
      [POp.acquire "A" 10 ⟨1, true, true, 0⟩ true,
       POp.destroy "A" false]).inUse ∧
    (alGet (runPool (mkPool 2)
      [POp.acquire "A" 10 ⟨1, true, true, 0⟩ true,
       POp.destroy "A" false]).browsers "A").isSome := by
  decide

/-- C10, amended: every pool operation preserves that `browsers` and
`browserStatus` have the same key set with `inUse` a subset of it; a
released session id never remains in-use; and a destroyed session id is
removed from `browsers`, `browserStatus` and `inUse` whenever the
underlying browser close succeeds. -/
theorem c10_bookkeeping (p : Pool) (op : POp) (h : KInv p) :
    KInv (poolStep p op) ∧
    (∀ sid now, sid ∉ (releaseBrowserForSession p sid now).inUse) ∧
    (∀ sid, sid ∉ (destroyBrowserForSession p sid true).inUse ∧
      alGet (destroyBrowserForSession p sid true).browsers sid = none ∧
      alGet (destroyBrowserForSession p sid true).browserStatus sid = none) := by
  refine ⟨KInv_poolStep op h, ?_, ?_⟩
  · intro sid now hmem
    simp only [releaseBrowserForSession] at hmem
    exact (mem_suDel.mp hmem).2 rfl
  · intro sid
    rcases hget : alGet p.browsers sid with _ | b
    · rw [destroy_of_absent p sid true hget]
      refine ⟨?_, hget, ?_⟩
      · intro hmem
        have hs := h.2 sid hmem
        rw [hget] at hs
        exact Bool.noConfusion hs
      · have hiff := h.1 sid
        rw [hget] at hiff
        rcases hst : alGet p.browserStatus sid with _ | st
        · rfl
        · rw [hst] at hiff
          exact absurd (hiff.mpr rfl) (by simp)
    · have hpres : (alGet p.browsers sid).isSome := by rw [hget]; rfl
      rw [destroy_of_present p sid hpres]
      refine ⟨?_, alGet_alErase_self _ _, alGet_alErase_self _ _⟩
      intro hmem
      exact (mem_suDel.mp hmem).2 rfl

/-- C10, witness: the amended bookkeeping facts at a concrete pool. -/
theorem c10_bookkeeping_w :
    "A" ∉ (releaseBrowserForSession (mkPool 2) "A" 5).inUse ∧
    alGet (destroyBrowserForSession (mkPool 2) "A" true).browsers "A" = none := by
  have h := c10_bookkeeping (mkPool 2) (POp.release "A" 5)
    ⟨fun k => Iff.rfl, fun u hu => absurd hu (List.not_mem_nil u)⟩
  exact ⟨h.2.1 "A" 5, (h.2.2 "A").2.1⟩

/-- C5: for a session owning a worker whose health probe passes,
releasing and then re-acquiring for the same session id returns the
identical worker, leaves the `browsers` map (hence pool size) and the
`created` counter unchanged, increments the `reused` counter, and marks
the session in use again. -/
theorem c5_reuse_after_release (p : Pool) (sid : String) (b : Browser)
    (now now2 : Nat) (fresh : Browser) (c : Bool)
    (hb : alGet p.browsers sid = some b) (hh : isBrowserHealthy b = true) :
    (getBrowserForSession (releaseBrowserForSession p sid now) sid now2 fresh c).2 =
      AcquireResult.ok b ∧
    (getBrowserForSession (releaseBrowserForSession p sid now) sid now2 fresh c).1.browsers =
      p.browsers ∧
    (getBrowserForSession (releaseBrowserForSession p sid now) sid now2 fresh c).1.stats.created =
      p.stats.created ∧
    (getBrowserForSession (releaseBrowserForSession p sid now) sid now2 fresh c).1.stats.reused =
      p.stats.reused + 1 ∧
    sid ∈ (getBrowserForSession (releaseBrowserForSession p sid now) sid now2 fresh c).1.inUse := by
  have hb1 : alGet (releaseBrowserForSession p sid now).browsers sid = some b := hb
  simp [getBrowserForSession, hb, hb1, hh, releaseBrowserForSession, mem_suAdd]

/-- C5, witness: the reuse equations on `reusePool`. -/
theorem c5_reuse_after_release_w :
    (getBrowserForSession (releaseBrowserForSession reusePool "A" 3) "A" 4
        ⟨9, true, true, 0⟩ true).2 = AcquireResult.ok ⟨1, true, true, 10⟩ ∧
    (getBrowserForSession (releaseBrowserForSession reusePool "A" 3) "A" 4
        ⟨9, true, true, 0⟩ true).1.stats.reused = 1 := by
  have h := c5_reuse_after_release reusePool "A" ⟨1, true, true, 10⟩ 3 4
    ⟨9, true, true, 0⟩ true (by decide) (by decide)
  exact ⟨h.1, h.2.2.2.1⟩

/-- C6: `destroy()` is idempotent (a second call leaves the state
unchanged), its effect does not depend on whether the underlying client
teardown succeeds (the error is caught), it cancels the reconnect timer
and health-check loop and leaves no client, and after it every
`connect()` is a no-op and no operation sequence ever re-arms a
reconnect timer, re-attaches a client or leaves the `destroyed` state. -/
theorem c6_destroy_idempotent (s : CM) (c c' : Bool) (o : ConnectOutcome)
    (ops : List CMOp) :
    cmStep (cmStep s (CMOp.destroyOp c)) (CMOp.destroyOp c') =
      cmStep s (CMOp.destroyOp c) ∧
    cmStep s (CMOp.destroyOp true) = cmStep s (CMOp.destroyOp false) ∧
    (cmStep s (CMOp.destroyOp c)).reconnectTimer = false ∧
    (cmStep s (CMOp.destroyOp c)).healthCheckTimer = false ∧
    (cmStep s (CMOp.destroyOp c)).hasClient = false ∧
    (cmStep s (CMOp.destroyOp c)).connectionState = ConnState.destroyed ∧
    cmStep (cmStep s (CMOp.destroyOp c)) (CMOp.connectOp o) =
      cmStep s (CMOp.destroyOp c) ∧
    (runCM (cmStep s (CMOp.destroyOp c)) ops).reconnectTimer = false ∧
    (runCM (cmStep s (CMOp.destroyOp c)) ops).hasClient = false ∧
    (runCM (cmStep s (CMOp.destroyOp c)) ops).connectionState = ConnState.destroyed := by
  have hsink : DestroyedSink (cmStep s (CMOp.destroyOp c)) := ⟨rfl, rfl, rfl, rfl, rfl⟩
  have hrun := DestroyedSink_runCM hsink ops
  exact ⟨rfl, rfl, rfl, rfl, rfl, rfl, rfl, hrun.2.1, hrun.2.2.2.1, hrun.2.2.2.2⟩

/-- C3, counterexample.  The claim fails in two ways on concrete traces:
after a single failed `connect()` (attempt counter 1, far below the
maximum 10) the status is already `failed`, because the catch block sets
it on every failure; and after ten consecutive failures reach the
terminal `connection:failed` emission, a later client loss event still
schedules an automatic reconnect with no `forceReconnect()` call. -/
theorem c3_failed_state_cex :
    (runCM initCM [CMOp.connectOp ConnectOutcome.timeoutFail]).connectionState =
      ConnState.failed ∧
    (runCM initCM [CMOp.connectOp ConnectOutcome.timeoutFail]).reconnectAttempts = 1 ∧
    initCM.maxReconnectAttempts = 10 ∧
    (runCM initCM
      [CMOp.connectOp ConnectOutcome.timeoutFail,
       CMOp.timerFire ConnectOutcome.timeoutFail,
       CMOp.timerFire ConnectOutcome.timeoutFail,
       CMOp.timerFire ConnectOutcome.timeoutFail,
       CMOp.timerFire ConnectOutcome.timeoutFail,
       CMOp.timerFire ConnectOutcome.timeoutFail,
       CMOp.timerFire ConnectOutcome.timeoutFail,
       CMOp.timerFire ConnectOutcome.timeoutFail,
       CMOp.timerFire ConnectOutcome.timeoutFail,
       CMOp.timerFire ConnectOutcome.timeoutFail]).failedEvents = 1 ∧
    (runCM initCM
      [CMOp.connectOp ConnectOutcome.timeoutFail,
       CMOp.timerFire ConnectOutcome.timeoutFail,
       CMOp.timerFire ConnectOutcome.timeoutFail,
       CMOp.timerFire ConnectOutcome.timeoutFail,
       CMOp.timerFire ConnectOutcome.timeoutFail,
       CMOp.timerFire ConnectOutcome.timeoutFail,
       CMOp.timerFire ConnectOutcome.timeoutFail,
       CMOp.timerFire ConnectOutcome.timeoutFail,
       CMOp.timerFire ConnectOutcome.timeoutFail,
       CMOp.timerFire ConnectOutcome.timeoutFail,
       CMOp.clientLost]).reconnectTimer = true := by
  decide

/-- C3, amended: every connect failure sets the status to `failed` and
increments the attempt counter; the failure handler emits the terminal
failure event and schedules no reconnect exactly when the incremented
counter reaches `maxReconnectAttempts`, and otherwise schedules one (so
`failed` also occurs transiently below the maximum); after the terminal
emission a client loss event can still schedule an automatic reconnect;
`forceReconnect()` resets the counter to 0 and drops the client before
reconnecting. -/
theorem c3_failed_state (s : CM) (o : ConnectOutcome)
    (hnd : s.isDestroyed = false) (ho : o ≠ ConnectOutcome.success) :
    (connectStep s o).connectionState = ConnState.failed ∧
    (connectStep s o).reconnectAttempts = s.reconnectAttempts + 1 ∧
    (s.maxReconnectAttempts ≤ s.reconnectAttempts + 1 →
      (connectStep s o).failedEvents = s.failedEvents + 1 ∧
      (connectStep s o).reconnectTimer = s.reconnectTimer) ∧
    (s.reconnectAttempts + 1 < s.maxReconnectAttempts →
      (connectStep s o).failedEvents = s.failedEvents ∧
      (connectStep s o).reconnectTimer = true) ∧
    cmStep s (CMOp.forceReconnectOp o) =
      connectStep { s with reconnectAttempts := 0, hasClient := false } o ∧
    (s.hasClient = true →
      (cmStep s CMOp.clientLost).connectionState = ConnState.disconnected ∧
      (cmStep s CMOp.clientLost).reconnectTimer = true) := by
  obtain ⟨ra, ma, cs, idt, rt, ht, hcl, fe⟩ := s
  simp only at hnd
  subst hnd
  cases o with
  | success => exact absurd rfl ho
  | factoryFail =>
      refine ⟨?_, ?_, ?_, ?_, ?_, ?_⟩
      · by_cases hm : ma ≤ ra + 1 <;>
          simp [connectStep, handleConnectionFailure, scheduleReconnect, hm]
      · by_cases hm : ma ≤ ra + 1 <;>
          simp [connectStep, handleConnectionFailure, scheduleReconnect, hm]
      · intro hm
        simp [connectStep, handleConnectionFailure, scheduleReconnect, hm]
      · intro hlt
        have hlt' : ra + 1 < ma := hlt
        have hm : ¬ma ≤ ra + 1 := by omega
        simp [connectStep, handleConnectionFailure, scheduleReconnect, hm]
      · cases hcl <;> rfl
      · intro hc
        cases hcl with
        | false => exact Bool.noConfusion hc
        | true => simp [cmStep, handleConnectionLost, scheduleReconnect]
  | timeoutFail =>
      refine ⟨?_, ?_, ?_, ?_, ?_, ?_⟩
      · by_cases hm : ma ≤ ra + 1 <;>
          simp [connectStep, handleConnectionFailure, scheduleReconnect, hm]
      · by_cases hm : ma ≤ ra + 1 <;>
          simp [connectStep, handleConnectionFailure, scheduleReconnect, hm]
      · intro hm
        simp [connectStep, handleConnectionFailure, scheduleReconnect, hm]
      · intro hlt
        have hlt' : ra + 1 < ma := hlt
        have hm : ¬ma ≤ ra + 1 := by omega
        simp [connectStep, handleConnectionFailure, scheduleReconnect, hm]
      · cases hcl <;> rfl
      · intro hc
        cases hcl with
        | false => exact Bool.noConfusion hc
        | true => simp [cmStep, handleConnectionLost, scheduleReconnect]

/-- C3, witness: the amended facts at the initial manager and a failing
factory. -/
theorem c3_failed_state_w :
    (connectStep initCM ConnectOutcome.factoryFail).connectionState =
      ConnState.failed ∧
    (connectStep initCM ConnectOutcome.factoryFail).reconnectAttempts = 1 := by
  have h := c3_failed_state initCM ConnectOutcome.factoryFail rfl (by decide)
  exact ⟨h.1, h.2.1⟩

/-- C4: for every attempt count and every jitter draw in `[0,1)` the
scheduled delay lies within `[0.75, 1.25]` times the undithered delay
`min(base * 2^attempts, cap)` (the source jitter is in fact only
±12.5%), and the undithered delay sequence is non-decreasing. -/
theorem c4_backoff_bounds (i j : Nat) (r : ℚ) (h0 : 0 ≤ r) (h1 : r < 1) :
    (3 / 4) * rawDelay i ≤ finalDelay i r ∧
    finalDelay i r ≤ (5 / 4) * rawDelay i ∧
    (i ≤ j → rawDelay i ≤ rawDelay j) := by
  have hD : 0 ≤ rawDelay i := by
    unfold rawDelay baseReconnectDelay maxReconnectDelay
    exact le_min (by positivity) (by norm_num)
  refine ⟨?_, ?_, ?_⟩
  · unfold finalDelay
    nlinarith [mul_nonneg hD h0]
  · unfold finalDelay
    nlinarith [mul_nonneg hD (sub_nonneg.mpr (le_of_lt h1))]
  · intro hij
    unfold rawDelay
    refine min_le_min ?_ le_rfl
    have h2 : (2 : ℚ) ^ i ≤ 2 ^ j := pow_le_pow_right₀ (by norm_num) hij
    exact mul_le_mul_of_nonneg_left h2 (by unfold baseReconnectDelay; norm_num)

/-- C4, witness: the bounds at attempt 0 with jitter draw 0. -/
theorem c4_backoff_bounds_w :
    (3 / 4) * rawDelay 0 ≤ finalDelay 0 0 ∧
    finalDelay 0 0 ≤ (5 / 4) * rawDelay 0 ∧
    (0 ≤ 1 → rawDelay 0 ≤ rawDelay 1) :=
  c4_backoff_bounds 0 1 0 le_rfl (by norm_num)

/-- C7, counterexample.  The claim that `healthCheck` is true only when
the throwaway page opens and closes within a short timeout fails: the
source races no timeout, so a browser whose page round trip takes an
hour is still reported healthy, while the spec predicate (with the
repository's own 5-second probe timeout) rejects it. -/
theorem c7_health_timeout_cex :
    isBrowserHealthy ⟨0, true, true, 3600000⟩ = true ∧
    healthCheckSpec 5000 ⟨0, true, true, 3600000⟩ = false := by
  decide

/-- C7, amended: `isBrowserHealthy` returns true exactly when the
worker's process is connected and the throwaway page opens and closes
successfully — no time bound is enforced — and any failure of these
steps yields `false` (the probe is total, never an exception). -/
theorem c7_health_characterization (b : Browser) :
    isBrowserHealthy b = true ↔ b.connected = true ∧ b.newPageOk = true := by
  cases hb : b.connected <;> cases hp : b.newPageOk <;>
    simp [isBrowserHealthy, newPageRoundTrip, hb, hp]

/-- C8: a sweep of the orphan-session cleaner never removes a directory
whose session has a live associated process (one the `ps` listing
reports), regardless of the directory's age; and every removed directory
is older than the orphan threshold with a negative process check. -/
theorem c8_reclaimer_safety (env : CleanEnv) (dirs : List DirEntry)
    (live : String → Bool)
    (hps : ∀ sid, live sid = true →
      ∃ out, env.psGrep sid = Except.ok out ∧ 0 < (jsTrim out).length) :
    (∀ d ∈ dirs, live (d.name.drop 8) = true →
      d ∉ cleanOrphanSessions env dirs) ∧
    (∀ d ∈ cleanOrphanSessions env dirs,
      maxOrphanAge < env.now - d.mtimeMs ∧
      checkForActiveProcess env (d.name.drop 8) = false) := by
  constructor
  · intro d _ hlive hmem
    obtain ⟨out, hok, hlen⟩ := hps _ hlive
    have hchk : checkForActiveProcess env (d.name.drop 8) = true := by
      unfold checkForActiveProcess
      rw [hok]
      simpa using hlen
    have hrem := (List.mem_filter.mp hmem).2
    unfold orphanRemovable at hrem
    rw [hchk] at hrem
    simp at hrem
  · intro d hmem
    have h2 := (List.mem_filter.mp hmem).2
    unfold orphanRemovable at h2
    simp only [Bool.and_eq_true] at h2
    refine ⟨of_decide_eq_true h2.1.2, ?_⟩
    have h3 := h2.2
    cases hchk : checkForActiveProcess env (d.name.drop 8)
    · rfl
    · rw [hchk] at h3
      exact Bool.noConfusion h3

/-- C8, witness: an hour-old session directory with a live process is
not removed. -/
theorem c8_reclaimer_safety_w :
    (⟨"session-a", 0⟩ : DirEntry) ∉
      cleanOrphanSessions busyCleanEnv [⟨"session-a", 0⟩] := by
  have h := c8_reclaimer_safety busyCleanEnv [⟨"session-a", 0⟩] (fun _ => true)
    (fun _ _ => ⟨"chrome --user-data-dir=a", rfl, by decide⟩)
  exact h.1 ⟨"session-a", 0⟩ (by decide) rfl

/-- C9, counterexample.  The claim that every tracked session whose
reconnect count exceeds the hard ceiling gets a `session:cleanup` signal
fails: a session inactive for over five minutes but with a connected
client is classified `stale` by the sweep's own classifier, and the
corrective pass only emits cleanup for `unhealthy` sessions, so a stale
session with reconnect count 11 > 10 receives no signal. -/
theorem c9_monitor_cleanup_cex :
    checkSessionHealth 400000 ⟨"a", 0, 11, true, false, StateProbe.state "CONNECTED"⟩ =
      ⟨"a", HealthStatus.stale, 11⟩ ∧
    (performCorrectiveActions (fun _ => true) (fun _ => true)
        [⟨"a", HealthStatus.stale, 11⟩]).2 = [] ∧
    10 < 11 := by
  decide

/-- C9, amended: on every sweep the Monitor emits `session:cleanup`
exactly for the tracked (still registered) sessions classified
`unhealthy` whose reconnect count exceeds the hard ceiling 10. -/
theorem c9_monitor_cleanup (registered hasCM : String → Bool)
    (report : List SessionHealth) (sid : String) :
    sid ∈ (performCorrectiveActions registered hasCM report).2 ↔
      ∃ h ∈ report, h.sessionId = sid ∧ registered sid = true ∧
        h.status = HealthStatus.unhealthy ∧ 10 < h.reconnectCount := by
  show sid ∈ correctiveCleanups registered report ↔ _
  unfold correctiveCleanups
  constructor
  · intro hmem
    obtain ⟨h, hmem2, hsid⟩ := List.mem_map.mp hmem
    have hf2 := List.mem_filter.mp hmem2
    have hf1 := List.mem_filter.mp hf2.1
    have hcond := hf2.2
    simp only [Bool.and_eq_true, decide_eq_true_eq] at hcond
    refine ⟨h, hf1.1, hsid, ?_, hcond.1, hcond.2⟩
    rw [← hsid]
    exact hf1.2
  · rintro ⟨h, hrep, hsid, hreg, hst, hcnt⟩
    refine List.mem_map.mpr ⟨h, ?_, hsid⟩
    refine List.mem_filter.mpr ⟨List.mem_filter.mpr ⟨hrep, ?_⟩, ?_⟩
    · rw [hsid]
      exact hreg
    · simp only [Bool.and_eq_true, decide_eq_true_eq]
      exact ⟨hst, hcnt⟩

end WaPool
